import Mathlib

/-
Verification of the paginated WebDAV synchronization engine of EchoBack
(src/services/webdav.ts).  The definitions below are a shallow embedding of
the TypeScript source: pure functions become Lean functions, the network is
replaced by explicit fetch-outcome oracles, and every remote request the code
would issue is recorded as an explicit operation in a trace.
-/

namespace EchoBack

/-- One persisted record.  The source type (HistoryRecord / NotebookEntry,
types.ts) mandates a globally unique string id and an integer epoch-ms
timestamp; every other field is an opaque payload that the sync engine never
inspects, collapsed here into a single string. -/
structure Record where
  id : String
  timestamp : Int
  payload : String
deriving DecidableEq

/-- PAGE_SIZE constant from webdav.ts line 6. -/
def PAGE_SIZE : Nat := 100

/-- INDEX_VERSION constant from webdav.ts line 7. -/
def INDEX_VERSION : Nat := 2

/-- One page of records, as stored in page_n.json (PagedData in types.ts). -/
structure PagedData where
  pageNumber : Nat
  records : List Record
deriving DecidableEq

/-- Per-page metadata entry of the index (PageMetadata in types.ts). -/
structure PageMeta where
  pageNumber : Nat
  recordCount : Nat
  lastModified : Int
deriving DecidableEq

/-- Summary index stored in index.json (PageIndex in types.ts). -/
structure PageIndex where
  version : Nat
  totalRecords : Nat
  pageSize : Nat
  totalPages : Nat
  lastSyncTime : Int
  pages : List PageMeta
deriving DecidableEq

/-- WebDAV configuration (types.ts, as used by SettingsModal and webdav.ts). -/
structure WebDAVConfig where
  url : String
  username : String
  password : String
  enabled : Bool
deriving DecidableEq

/-! ### Sorting

webdav.ts sorts with sort((a, b) => b.timestamp - a.timestamp), a stable
sort that orders records by timestamp descending and keeps the original
relative order of records with equal timestamps.  A stable insertion sort
has exactly this observable behaviour. -/

/-- Insert a record into a timestamp-descending list, in front of the first
element whose timestamp is not strictly larger (stability: the inserted
record precedes later records with an equal timestamp). -/
def insertDesc (r : Record) : List Record → List Record
  | [] => [r]
  | x :: xs => if r.timestamp < x.timestamp then x :: insertDesc r xs else r :: x :: xs

/-- Stable sort by timestamp descending, the observable behaviour of the
JavaScript sort call in paginateRecords (webdav.ts line 223) and in
syncDataType (webdav.ts line 295). -/
def sortByTimestampDesc (l : List Record) : List Record :=
  l.foldr insertDesc []

/-! ### Chunking

The loop in paginateRecords (webdav.ts lines 226-232) slices the sorted
array into consecutive chunks of PAGE_SIZE. -/

/-- Structural worker for chunksOf: the fuel argument only bounds the
number of chunks produced and is always supplied as the list length, which
suffices whenever n is positive. -/
def chunksOfAux (n : Nat) : Nat → List Record → List (List Record)
  | _, [] => []
  | 0, _ => []
  | fuel + 1, x :: xs => (x :: xs).take n :: chunksOfAux n fuel ((x :: xs).drop n)

/-- Split a list into consecutive chunks of size n (the last chunk may be
shorter).  Returns no chunks on the empty list, mirroring the loop bound. -/
def chunksOf (n : Nat) (l : List Record) : List (List Record) :=
  chunksOfAux n l.length l

/-- Translation of paginateRecords (webdav.ts lines 219-248).  The wall
clock read by the two Date.now() calls is passed in as the parameter now:
both stamps are taken during the same invocation. -/
def paginateRecords (now : Int) (records : List Record) : List PagedData × PageIndex :=
  let sorted := sortByTimestampDesc records
  let chunks := chunksOf PAGE_SIZE sorted
  let pages : List PagedData := chunks.enum.map (fun c => { pageNumber := c.1, records := c.2 })
  let index : PageIndex := {
    version := INDEX_VERSION
    totalRecords := records.length
    pageSize := PAGE_SIZE
    totalPages := pages.length
    lastSyncTime := now
    pages := pages.map (fun p => {
      pageNumber := p.pageNumber
      recordCount := p.records.length
      lastModified := now }) }
  (pages, index)

/-! ### The merge map

syncDataType (webdav.ts lines 289-306) merges two record arrays through a
JavaScript Map: remote records are inserted first, then local records, and
Map.set overwrites the value of an existing key in place while a fresh key
is appended.  Array.from(map.values()) then yields the values in key
insertion order.  The association list below has exactly these semantics. -/

/-- JavaScript Map.set on an insertion-ordered association list: an existing
key keeps its position and gets the new value, a fresh key is appended. -/
def mapSet (m : List (String × Record)) (k : String) (v : Record) : List (String × Record) :=
  if m.any (fun p => p.1 == k) then
    m.map (fun p => if p.1 == k then (k, v) else p)
  else
    m ++ [(k, v)]

/-- JavaScript Map.get: the value stored at a key, if any. -/
def mapGet (m : List (String × Record)) (k : String) : Option Record :=
  (m.find? (fun p => p.1 == k)).map (fun p => p.2)

/-- The merge map built by syncDataType: remote records inserted first, then
local records, each keyed by id (webdav.ts lines 290-293 and 301-304). -/
def mergeById (remote localRecords : List Record) : List (String × Record) :=
  (remote ++ localRecords).foldl (fun m r => mapSet m r.id r) []

/-- Array.from(map.values()) over the merge map: the merged record list in
key insertion order (webdav.ts lines 295 and 306). -/
def mergeValues (remote localRecords : List Record) : List Record :=
  (mergeById remote localRecords).map (fun p => p.2)

/-! ### The remote protocol as a trace

Every remote request syncDataType / pushDataType would issue is recorded as
one RemoteOp.  Fetch outcomes are supplied by oracles: getPage returns null
both on 404 and on any error (webdav.ts lines 180-192, the catch returns
null), so a page fetch outcome is simply an Option. -/

/-- Outcome of the GET of index.json, before getPageIndex post-processing:
a 404, a successful parse, or an error (network failure or a non-2xx
status, which the code turns into a thrown exception). -/
inductive FetchResult where
  | notFound
  | ok (index : PageIndex)
  | error
deriving DecidableEq

/-- Translation of getPageIndex (webdav.ts lines 117-142) given the fetch
outcome: 404 returns null; a successful response returns the index; a
thrown error is caught by the catch block, logged, and turned into null.
The enabled-flag guard is handled at the syncData boundary, which never
calls this with sync disabled. -/
def getPageIndex (r : FetchResult) : Option PageIndex :=
  match r with
  | .notFound => none
  | .ok i => some i
  | .error => none

/-- One remote request issued by the sync engine. -/
inductive RemoteOp where
  | mkcol (path : String)
  | getIndex (dir : String)
  | getPage (dir : String) (pageNumber : Nat)
  | putPage (dir : String) (data : PagedData)
  | putIndex (dir : String) (index : PageIndex)
deriving DecidableEq

/-- Translation of uploadAllPages (webdav.ts lines 351-359): paginate, PUT
every page, then PUT the index last. -/
def uploadAllPagesOps (dir : String) (now : Int) (records : List Record) : List RemoteOp :=
  let pi := paginateRecords now records
  pi.1.map (RemoteOp.putPage dir) ++ [RemoteOp.putIndex dir pi.2]

/-- Translation of downloadAllPages (webdav.ts lines 337-348): for each page
listed in the index fetch the page; a null result (404 or error) is
silently skipped and contributes no records. -/
def downloadAllPages (pageFetch : Nat → Option PagedData) (index : PageIndex) : List Record :=
  index.pages.foldl (fun acc meta =>
    match pageFetch meta.pageNumber with
    | some page => acc ++ page.records
    | none => acc) []

/-- Records of the remote page 0 as syncDataType reads them (webdav.ts line
287): remotePage0?.records || []. -/
def page0Records (pageFetch : Nat → Option PagedData) : List Record :=
  match pageFetch 0 with
  | some p => p.records
  | none => []

/-- The fresh one-page index written by the merged-fits-one-page shortcut of
syncDataType (webdav.ts lines 318-329). -/
def shortcutIndex (now : Int) (merged : List Record) : PageIndex :=
  { version := INDEX_VERSION
    totalRecords := merged.length
    pageSize := PAGE_SIZE
    totalPages := 1
    lastSyncTime := now
    pages := [{ pageNumber := 0, recordCount := merged.length, lastModified := now }] }

/-- Translation of syncDataType (webdav.ts lines 271-334), returning the
record list handed back to the caller together with the trace of remote
requests.  indexFetch and pageFetch are the outcomes the remote would
deliver for the index GET and each page GET. -/
def syncDataTypeOps (dir : String) (indexFetch : FetchResult)
    (pageFetch : Nat → Option PagedData) (now : Int) (localRecords : List Record) :
    List Record × List RemoteOp :=
  match getPageIndex indexFetch with
  | none =>
    (localRecords, RemoteOp.getIndex dir :: uploadAllPagesOps dir now localRecords)
  | some remoteIndex =>
    let mergedRecords := sortByTimestampDesc (mergeValues (page0Records pageFetch) localRecords)
    if mergedRecords.length > PAGE_SIZE then
      let allRemoteRecords := downloadAllPages pageFetch remoteIndex
      let allMerged := mergeValues allRemoteRecords localRecords
      (allMerged,
        RemoteOp.getIndex dir :: RemoteOp.getPage dir 0 ::
          (remoteIndex.pages.map (fun m => RemoteOp.getPage dir m.pageNumber) ++
            uploadAllPagesOps dir now allMerged))
    else
      (mergedRecords,
        [RemoteOp.getIndex dir, RemoteOp.getPage dir 0,
          RemoteOp.putPage dir { pageNumber := 0, records := mergedRecords },
          RemoteOp.putIndex dir (shortcutIndex now mergedRecords)])

/-- Fetch outcomes of both collections, supplied to a full sync. -/
structure RemoteEnv where
  historyIndexFetch : FetchResult
  notebookIndexFetch : FetchResult
  historyPageFetch : Nat → Option PagedData
  notebookPageFetch : Nat → Option PagedData

/-- The configuration gate this.config?.enabled used by syncData and
pushChanges (webdav.ts lines 255 and 363). -/
def configEnabled : Option WebDAVConfig → Bool
  | none => false
  | some c => c.enabled

/-- The three MKCOL requests of initializeDirectories (webdav.ts 110-114). -/
def initializeDirectoriesOps : List RemoteOp :=
  [RemoteOp.mkcol "echoback", RemoteOp.mkcol "echoback/history",
    RemoteOp.mkcol "echoback/notebook"]

/-- Translation of syncData (webdav.ts lines 251-269): with sync disabled it
returns its inputs unchanged and issues no request; otherwise it creates
the directories and runs syncDataType on each collection. -/
def syncData (config : Option WebDAVConfig) (env : RemoteEnv) (now : Int)
    (localHistory localNotebook : List Record) :
    (List Record × List Record) × List RemoteOp :=
  if configEnabled config = false then
    ((localHistory, localNotebook), [])
  else
    let h := syncDataTypeOps "echoback/history" env.historyIndexFetch
      env.historyPageFetch now localHistory
    let n := syncDataTypeOps "echoback/notebook" env.notebookIndexFetch
      env.notebookPageFetch now localNotebook
    ((h.1, n.1), initializeDirectoriesOps ++ h.2 ++ n.2)

/-- Translation of pushDataType (webdav.ts lines 375-391) in the all-writes-
succeed case: if there is at least one page, PUT page 0, then the remaining
pages, then the fresh index; with no pages nothing is uploaded at all. -/
def pushDataTypeOps (dir : String) (now : Int) (records : List Record) : List RemoteOp :=
  let pi := paginateRecords now records
  match pi.1 with
  | [] => []
  | p0 :: rest =>
    RemoteOp.putPage dir p0 :: (rest.map (RemoteOp.putPage dir) ++ [RemoteOp.putIndex dir pi.2])

/-- Translation of pushChanges (webdav.ts lines 362-373): with sync disabled
it returns immediately with no request; otherwise directories are created
and both collections pushed. -/
def pushChanges (config : Option WebDAVConfig) (now : Int)
    (history notebook : List Record) : List RemoteOp :=
  if configEnabled config = false then []
  else
    initializeDirectoriesOps ++ pushDataTypeOps "echoback/history" now history ++
      pushDataTypeOps "echoback/notebook" now notebook

/-- Translation of pushDataType with fallible page PUTs.  pageOk says which
page PUTs succeed.  The await of putPage(0) throws on failure, so nothing
else is issued after a failed page 0; the remaining pages are issued
together through Promise.all, and the index PUT is reached only when every
page PUT has succeeded.  The Bool result is true when the whole push
completed without a thrown error. -/
def pushDataTypeTrace (dir : String) (pageOk : Nat → Bool) (now : Int)
    (records : List Record) : List RemoteOp × Bool :=
  let pi := paginateRecords now records
  match pi.1 with
  | [] => ([], true)
  | p0 :: rest =>
    if pageOk p0.pageNumber then
      let restOps := rest.map (RemoteOp.putPage dir)
      if rest.all (fun p => pageOk p.pageNumber) then
        (RemoteOp.putPage dir p0 :: (restOps ++ [RemoteOp.putIndex dir pi.2]), true)
      else
        (RemoteOp.putPage dir p0 :: restOps, false)
    else
      ([RemoteOp.putPage dir p0], false)

/-! ### Byte-exact serialization of the index

putPageIndex uploads JSON.stringify(index, null, 2) (webdav.ts line 155).
A PageIndex consists of integers only, so its serialization can be mirrored
byte for byte; toString on Nat and on the nonnegative Int values produced by
Date.now() agrees with the JavaScript decimal rendering. -/

/-- Serialization of one pages[] entry inside JSON.stringify(index, null, 2),
at nesting depth 2 (six-space field indent). -/
def serializePageMeta (m : PageMeta) : String :=
  "    \x7b\n      \"pageNumber\": " ++ toString m.pageNumber
    ++ ",\n      \"recordCount\": " ++ toString m.recordCount
    ++ ",\n      \"lastModified\": " ++ toString m.lastModified
    ++ "\n    \x7d"

/-- Serialization of the pages array inside JSON.stringify(index, null, 2). -/
def serializePageList (ms : List PageMeta) : String :=
  match ms with
  | [] => "[]"
  | _ => "[\n" ++ String.intercalate ",\n" (ms.map serializePageMeta) ++ "\n  ]"

/-- Byte-exact JSON.stringify(index, null, 2), the body of the index PUT
issued by putPageIndex (webdav.ts line 155). -/
def serializeIndex (i : PageIndex) : String :=
  "\x7b\n  \"version\": " ++ toString i.version
    ++ ",\n  \"totalRecords\": " ++ toString i.totalRecords
    ++ ",\n  \"pageSize\": " ++ toString i.pageSize
    ++ ",\n  \"totalPages\": " ++ toString i.totalPages
    ++ ",\n  \"lastSyncTime\": " ++ toString i.lastSyncTime
    ++ ",\n  \"pages\": " ++ serializePageList i.pages
    ++ "\n\x7d"

/-- The page PUT operations of a trace, used to compare the uploaded page
files of two pushes independently of the index upload. -/
def pagePutsOf (ops : List RemoteOp) : List RemoteOp :=
  ops.filter (fun op => match op with
    | RemoteOp.putPage _ _ => true
    | _ => false)

/-! ### Concrete scenario used to instantiate the silent-page-loss claim -/

/-- A full remote page 0 of one hundred records with distinct ids. -/
def remotePageFull : List Record :=
  (List.range 100).map (fun i => { id := toString i, timestamp := (i : Int), payload := "" })

/-- Page-fetch outcomes of a remote whose page 0 downloads fine and whose
page 1 fetch fails (getPage returns null). -/
def remoteFetchWitness : Nat → Option PagedData :=
  fun n => if n = 0 then some { pageNumber := 0, records := remotePageFull } else none

/-- The remote index of that scenario: two pages, 101 records in total. -/
def remoteIndexWitness : PageIndex :=
  { version := 2, totalRecords := 101, pageSize := 100, totalPages := 2, lastSyncTime := 0,
    pages := [{ pageNumber := 0, recordCount := 100, lastModified := 0 },
      { pageNumber := 1, recordCount := 1, lastModified := 0 }] }

/-- The record that lives only on the remote page whose fetch fails. -/
def lostRecord : Record := { id := "x", timestamp := 50, payload := "only-on-page-1" }

/-- The single local record of the scenario. -/
def localOne : List Record := [{ id := "loc", timestamp := 1000, payload := "" }]

/-! ### Lemmas: the stable sort -/

theorem insertDesc_perm (r : Record) (l : List Record) :
    (insertDesc r l).Perm (r :: l) := by
  induction l with
  | nil => simp [insertDesc]
  | cons x xs ih =>
    by_cases h : r.timestamp < x.timestamp
    · simp only [insertDesc, if_pos h]
      exact (ih.cons x).trans (List.Perm.swap r x xs)
    · simp only [insertDesc, if_neg h]
      exact List.Perm.refl _

theorem sortByTimestampDesc_perm (l : List Record) :
    (sortByTimestampDesc l).Perm l := by
  induction l with
  | nil => simp [sortByTimestampDesc]
  | cons x xs ih =>
    simp only [sortByTimestampDesc, List.foldr_cons] at ih ⊢
    exact (insertDesc_perm x _).trans (ih.cons x)

theorem mem_insertDesc {a r : Record} {l : List Record} :
    a ∈ insertDesc r l ↔ a = r ∨ a ∈ l := by
  simpa using (insertDesc_perm r l).mem_iff (a := a)

theorem insertDesc_pairwise {r : Record} {l : List Record}
    (h : l.Pairwise (fun a b => b.timestamp ≤ a.timestamp)) :
    (insertDesc r l).Pairwise (fun a b => b.timestamp ≤ a.timestamp) := by
  induction l with
  | nil => simp [insertDesc]
  | cons x xs ih =>
    rw [List.pairwise_cons] at h
    obtain ⟨hx, hxs⟩ := h
    by_cases hrx : r.timestamp < x.timestamp
    · simp only [insertDesc, if_pos hrx]
      rw [List.pairwise_cons]
      refine ⟨?_, ih hxs⟩
      intro b hb
      rcases mem_insertDesc.mp hb with rfl | hbxs
      · exact le_of_lt hrx
      · exact hx b hbxs
    · simp only [insertDesc, if_neg hrx]
      rw [List.pairwise_cons]
      refine ⟨?_, ?_⟩
      · intro b hb
        rcases List.mem_cons.mp hb with rfl | hb
        · exact not_lt.mp hrx
        · exact le_trans (hx b hb) (not_lt.mp hrx)
      · rw [List.pairwise_cons]
        exact ⟨hx, hxs⟩

theorem sortByTimestampDesc_pairwise (l : List Record) :
    (sortByTimestampDesc l).Pairwise (fun a b => b.timestamp ≤ a.timestamp) := by
  induction l with
  | nil => simp [sortByTimestampDesc]
  | cons x xs ih =>
    simp only [sortByTimestampDesc, List.foldr_cons] at ih ⊢
    exact insertDesc_pairwise ih

/-! ### Lemmas: chunking -/

theorem chunksOf_nil (n : Nat) : chunksOf n [] = [] := rfl

theorem chunksOfAux_fuel (n : Nat) (hn : n ≠ 0) :
    ∀ fuel1 : Nat, ∀ fuel2 : Nat, ∀ l : List Record,
      l.length ≤ fuel1 → l.length ≤ fuel2 →
      chunksOfAux n fuel1 l = chunksOfAux n fuel2 l := by
  intro fuel1
  induction fuel1 with
  | zero =>
    intro fuel2 l h1 h2
    have hl : l = [] := List.length_eq_zero.mp (Nat.le_zero.mp h1)
    subst hl
    cases fuel2 <;> rfl
  | succ f1 ih =>
    intro fuel2 l h1 h2
    cases l with
    | nil => cases fuel2 <;> rfl
    | cons x xs =>
      cases fuel2 with
      | zero =>
        simp at h2
      | succ f2 =>
        simp only [chunksOfAux]
        congr 1
        apply ih
        · rw [List.length_drop]
          simp only [List.length_cons] at h1 ⊢
          omega
        · rw [List.length_drop]
          simp only [List.length_cons] at h2 ⊢
          omega

theorem chunksOf_cons_eq (n : Nat) (l : List Record) (hn : n ≠ 0) (hl : l ≠ []) :
    chunksOf n l = l.take n :: chunksOf n (l.drop n) := by
  unfold chunksOf
  cases l with
  | nil => exact absurd rfl hl
  | cons x xs =>
    simp only [List.length_cons, chunksOfAux]
    congr 1
    apply chunksOfAux_fuel n hn
    · rw [List.length_drop]
      simp only [List.length_cons]
      omega
    · exact le_rfl

theorem chunksOf_flatten (n : Nat) (hn : n ≠ 0) (l : List Record) :
    (chunksOf n l).flatten = l := by
  by_cases hl : l = []
  · subst hl
    rw [chunksOf_nil]
    rfl
  · rw [chunksOf_cons_eq n l hn hl, List.flatten_cons, chunksOf_flatten n hn (l.drop n),
      List.take_append_drop]
termination_by l.length
decreasing_by
  rw [List.length_drop]
  have hpos : 0 < l.length := List.length_pos.mpr hl
  have hn2 : 0 < n := Nat.pos_of_ne_zero hn
  omega

theorem chunksOf_length (n : Nat) (hn : n ≠ 0) (l : List Record) :
    (chunksOf n l).length = (l.length + n - 1) / n := by
  have hpos : 0 < n := Nat.pos_of_ne_zero hn
  by_cases hl : l = []
  · subst hl
    rw [chunksOf_nil]
    simp only [List.length_nil, Nat.zero_add]
    exact (Nat.div_eq_of_lt (by omega)).symm
  · have hlpos : 0 < l.length := List.length_pos.mpr hl
    rw [chunksOf_cons_eq n l hn hl]
    simp only [List.length_cons]
    rw [chunksOf_length n hn (l.drop n), List.length_drop]
    have h2 : l.length + n - 1 = (l.length - 1) + n := by omega
    rw [h2, Nat.add_div_right _ hpos]
    congr 1
    by_cases hln : n ≤ l.length
    · congr 1
      omega
    · have ha : l.length - n + n - 1 = n - 1 := by omega
      have hb : (n - 1) / n = 0 := Nat.div_eq_of_lt (by omega)
      have hc : (l.length - 1) / n = 0 := Nat.div_eq_of_lt (by omega)
      rw [ha, hb, hc]
termination_by l.length
decreasing_by
  rw [List.length_drop]
  omega

/-! ### Lemmas: pagination -/

theorem paginate_pages_records (now : Int) (rs : List Record) :
    ((paginateRecords now rs).1.map (fun p => p.records))
      = chunksOf PAGE_SIZE (sortByTimestampDesc rs) := by
  simp only [paginateRecords, List.map_map]
  have hcomp : ((fun p : PagedData => p.records) ∘
      (fun c : Nat × List Record => ({ pageNumber := c.1, records := c.2 } : PagedData)))
      = Prod.snd := rfl
  rw [hcomp, List.enum_map_snd]

theorem paginate_pages_length (now : Int) (rs : List Record) :
    (paginateRecords now rs).1.length
      = (chunksOf PAGE_SIZE (sortByTimestampDesc rs)).length := by
  simp [paginateRecords, List.enum_length]

/-! ### Lemmas: the merge map -/

theorem find?_map_replace (m : List (String × Record)) (k : String) (v : Record)
    (h : ∃ p ∈ m, p.1 = k) :
    (m.map (fun p => if p.1 == k then (k, v) else p)).find? (fun p => p.1 == k)
      = some (k, v) := by
  induction m with
  | nil => simp at h
  | cons q m ih =>
    by_cases hq : q.1 = k
    · have hhead : (if q.1 == k then ((k, v) : String × Record) else q) = (k, v) := by
        simp [hq]
      rw [List.map_cons, hhead, List.find?_cons_of_pos _ (by simp)]
    · have hhead : (if q.1 == k then ((k, v) : String × Record) else q) = q := by
        simp [hq]
      rw [List.map_cons, hhead, List.find?_cons_of_neg _ (by simp [hq])]
      apply ih
      obtain ⟨p, hp, hpk⟩ := h
      rcases List.mem_cons.mp hp with rfl | hpm
      · exact absurd hpk hq
      · exact ⟨p, hpm, hpk⟩

theorem find?_map_replace_ne (m : List (String × Record)) (k k2 : String) (v : Record)
    (hk : k2 ≠ k) :
    (m.map (fun p => if p.1 == k then (k, v) else p)).find? (fun p => p.1 == k2)
      = m.find? (fun p => p.1 == k2) := by
  induction m with
  | nil => rfl
  | cons q m ih =>
    by_cases hq : q.1 = k
    · have h2 : ¬ (k = k2) := fun he => hk he.symm
      have hhead : (if q.1 == k then ((k, v) : String × Record) else q) = (k, v) := by
        simp [hq]
      rw [List.map_cons, hhead, List.find?_cons_of_neg _ (by simp [h2]),
        List.find?_cons_of_neg _ (by simp [hq, h2])]
      exact ih
    · have hhead : (if q.1 == k then ((k, v) : String × Record) else q) = q := by
        simp [hq]
      rw [List.map_cons, hhead]
      by_cases hq2 : q.1 = k2
      · rw [List.find?_cons_of_pos _ (by simp [hq2]), List.find?_cons_of_pos _ (by simp [hq2])]
      · rw [List.find?_cons_of_neg _ (by simp [hq2]), List.find?_cons_of_neg _ (by simp [hq2])]
        exact ih

theorem mapGet_mapSet_self (m : List (String × Record)) (k : String) (v : Record) :
    mapGet (mapSet m k v) k = some v := by
  unfold mapSet mapGet
  by_cases h : (m.any fun p => p.1 == k) = true
  · rw [if_pos h, find?_map_replace m k v (by simpa using h)]
    rfl
  · rw [if_neg h, List.find?_append]
    have hnone : m.find? (fun p => p.1 == k) = none := by
      rw [List.find?_eq_none]
      intro p hp hpk
      exact h (List.any_eq_true.mpr ⟨p, hp, hpk⟩)
    rw [hnone]
    simp

theorem mapGet_mapSet_ne (m : List (String × Record)) (k k2 : String) (v : Record)
    (hk : k2 ≠ k) :
    mapGet (mapSet m k v) k2 = mapGet m k2 := by
  unfold mapSet mapGet
  by_cases h : (m.any fun p => p.1 == k) = true
  · rw [if_pos h, find?_map_replace_ne m k k2 v hk]
  · rw [if_neg h, List.find?_append]
    have hlast : List.find? (fun p => p.1 == k2) [(k, v)] = none := by
      rw [List.find?_eq_none]
      intro p hp
      simp only [List.mem_singleton] at hp
      subst hp
      simp only [beq_iff_eq]
      exact fun he => hk he.symm
    rw [hlast, Option.or_none]

theorem mapGet_foldl (l : List Record) (m : List (String × Record)) (k : String) :
    mapGet (l.foldl (fun acc r => mapSet acc r.id r) m) k
      = (l.reverse.find? (fun r => r.id == k)).or (mapGet m k) := by
  induction l generalizing m with
  | nil => simp
  | cons r rs ih =>
    simp only [List.foldl_cons, List.reverse_cons, List.find?_append]
    rw [ih, Option.or_assoc]
    congr 1
    by_cases hr : r.id = k
    · subst hr
      rw [mapGet_mapSet_self]
      simp
    · rw [mapGet_mapSet_ne m r.id k r (fun he => hr he.symm)]
      have : List.find? (fun x => x.id == k) [r] = none := by
        rw [List.find?_eq_none]
        intro x hx
        simp only [List.mem_singleton] at hx
        subst hx
        simp [hr]
      rw [this, Option.none_or]

theorem mergeById_get (R L : List Record) (k : String) :
    mapGet (mergeById R L) k
      = (L.reverse ++ R.reverse).find? (fun r => r.id == k) := by
  unfold mergeById
  rw [mapGet_foldl]
  simp [List.reverse_append, mapGet]

theorem mem_mapSet {p : String × Record} {m : List (String × Record)} {k : String}
    {v : Record} (h : p ∈ mapSet m k v) :
    p = (k, v) ∨ p ∈ m := by
  unfold mapSet at h
  by_cases hc : (m.any fun q => q.1 == k) = true
  · rw [if_pos hc] at h
    obtain ⟨q, hq, hqe⟩ := List.mem_map.mp h
    by_cases hqk : q.1 = k
    · left
      rw [← hqe]
      simp [hqk]
    · right
      simp only [beq_iff_eq, hqk, if_false] at hqe
      rw [← hqe]
      exact hq
  · rw [if_neg hc] at h
    rcases List.mem_append.mp h with h1 | h2
    · right
      exact h1
    · left
      simpa using h2

theorem foldl_key_inv (l : List Record) (m : List (String × Record))
    (hm : ∀ p ∈ m, p.1 = p.2.id) :
    ∀ p ∈ l.foldl (fun acc r => mapSet acc r.id r) m, p.1 = p.2.id := by
  induction l generalizing m with
  | nil => simpa using hm
  | cons r rs ih =>
    simp only [List.foldl_cons]
    apply ih
    intro p hp
    rcases mem_mapSet hp with rfl | hpm
    · rfl
    · exact hm p hpm

theorem mergeById_key_eq_id (R L : List Record) :
    ∀ p ∈ mergeById R L, p.1 = p.2.id := by
  apply foldl_key_inv
  intro p hp
  simp at hp

theorem mapSet_keys_nodup {m : List (String × Record)} {k : String} {v : Record}
    (h : (m.map Prod.fst).Nodup) : ((mapSet m k v).map Prod.fst).Nodup := by
  unfold mapSet
  by_cases hc : (m.any fun q => q.1 == k) = true
  · rw [if_pos hc]
    have hkeys : (m.map (fun p => if p.1 == k then (k, v) else p)).map Prod.fst
        = m.map Prod.fst := by
      rw [List.map_map]
      apply List.map_congr_left
      intro p hp
      by_cases hpk : p.1 = k
      · simp [hpk]
      · simp [hpk]
    rw [hkeys]
    exact h
  · rw [if_neg hc, List.map_append]
    rw [List.nodup_append]
    refine ⟨h, List.nodup_singleton k, ?_⟩
    intro a ha hak
    simp only [List.map_cons, List.map_nil, List.mem_singleton] at hak
    subst hak
    obtain ⟨p, hp, hpk⟩ := List.mem_map.mp ha
    exact hc (List.any_eq_true.mpr ⟨p, hp, by simp [hpk]⟩)

theorem foldl_keys_nodup (l : List Record) (m : List (String × Record))
    (hm : (m.map Prod.fst).Nodup) :
    ((l.foldl (fun acc r => mapSet acc r.id r) m).map Prod.fst).Nodup := by
  induction l generalizing m with
  | nil => simpa using hm
  | cons r rs ih =>
    simp only [List.foldl_cons]
    exact ih _ (mapSet_keys_nodup hm)

theorem mergeById_keys_nodup (R L : List Record) :
    ((mergeById R L).map Prod.fst).Nodup := by
  apply foldl_keys_nodup
  simp

theorem mapGet_of_mem {m : List (String × Record)} {p : String × Record}
    (hnd : (m.map Prod.fst).Nodup) (hp : p ∈ m) : mapGet m p.1 = some p.2 := by
  induction m with
  | nil => simp at hp
  | cons q m ih =>
    rw [List.map_cons, List.nodup_cons] at hnd
    obtain ⟨hq, hnd⟩ := hnd
    rcases List.mem_cons.mp hp with rfl | hp
    · unfold mapGet
      rw [List.find?_cons_of_pos _ (by simp)]
      rfl
    · unfold mapGet
      rw [List.find?_cons_of_neg]
      · exact ih hnd hp
      · simp only [beq_iff_eq]
        intro he
        apply hq
        rw [he]
        exact List.mem_map.mpr ⟨p, hp, rfl⟩

theorem mapGet_isSome_iff (m : List (String × Record)) (k : String) :
    (mapGet m k).isSome = true ↔ ∃ p ∈ m, p.1 = k := by
  unfold mapGet
  rw [show (Option.map (fun p : String × Record => p.2)
      (m.find? fun p => p.1 == k)).isSome = (m.find? fun p => p.1 == k).isSome from by
    cases m.find? fun p => p.1 == k <;> rfl]
  rw [List.find?_isSome]
  simp

/-- Membership in the merged id set: an id is present in the merge exactly
when it is present locally or remotely.  This is the observable content of
the insert-remote-then-local loop of syncDataType. -/
theorem mergeValues_mem_id (R L : List Record) (k : String) :
    k ∈ (mergeValues R L).map Record.id
      ↔ (k ∈ L.map Record.id ∨ k ∈ R.map Record.id) := by
  have hval : k ∈ (mergeValues R L).map Record.id ↔ ∃ p ∈ mergeById R L, p.1 = k := by
    unfold mergeValues
    rw [List.map_map, List.mem_map]
    constructor
    · rintro ⟨p, hp, hpk⟩
      refine ⟨p, hp, ?_⟩
      rw [mergeById_key_eq_id R L p hp]
      exact hpk
    · rintro ⟨p, hp, hpk⟩
      refine ⟨p, hp, ?_⟩
      show p.2.id = k
      rw [← mergeById_key_eq_id R L p hp]
      exact hpk
  rw [hval, ← mapGet_isSome_iff, mergeById_get]
  rw [List.find?_isSome]
  constructor
  · rintro ⟨x, hx, hxk⟩
    rw [List.mem_append] at hx
    rcases hx with hx | hx
    · exact Or.inl (List.mem_map.mpr ⟨x, List.mem_reverse.mp hx, by simpa using hxk⟩)
    · exact Or.inr (List.mem_map.mpr ⟨x, List.mem_reverse.mp hx, by simpa using hxk⟩)
  · rintro (hk | hk)
    · obtain ⟨x, hx, hxk⟩ := List.mem_map.mp hk
      exact ⟨x, List.mem_append.mpr (Or.inl (List.mem_reverse.mpr hx)), by simp [hxk]⟩
    · obtain ⟨x, hx, hxk⟩ := List.mem_map.mp hk
      exact ⟨x, List.mem_append.mpr (Or.inr (List.mem_reverse.mpr hx)), by simp [hxk]⟩

theorem unique_id_eq {l : List Record} (h : l.Pairwise (fun a b => a.id ≠ b.id))
    {x y : Record} (hx : x ∈ l) (hy : y ∈ l) (hxy : x.id = y.id) : x = y := by
  induction l with
  | nil => simp at hx
  | cons a l ih =>
    rw [List.pairwise_cons] at h
    obtain ⟨ha, hl⟩ := h
    rcases List.mem_cons.mp hx with rfl | hx2
    · rcases List.mem_cons.mp hy with rfl | hy2
      · rfl
      · exact absurd hxy (ha y hy2)
    · rcases List.mem_cons.mp hy with rfl | hy2
      · exact absurd hxy.symm (ha x hx2)
      · exact ih hl hx2 hy2

/-- Local wins in the merge map: with locally unique ids, looking up the id
of a local record in the merge map yields exactly that local record. -/
theorem mergeById_get_local (R L : List Record) (r : Record)
    (hL : L.Pairwise (fun a b => a.id ≠ b.id)) (hr : r ∈ L) :
    mapGet (mergeById R L) r.id = some r := by
  rw [mergeById_get, List.find?_append]
  have hfind : L.reverse.find? (fun x => x.id == r.id) = some r := by
    have hs : (L.reverse.find? (fun x => x.id == r.id)).isSome = true := by
      rw [List.find?_isSome]
      exact ⟨r, List.mem_reverse.mpr hr, by simp⟩
    obtain ⟨x, hx⟩ := Option.isSome_iff_exists.mp hs
    have hxm : x ∈ L.reverse := List.mem_of_find?_eq_some hx
    have hxid : x.id = r.id := by simpa using List.find?_some hx
    rw [hx]
    congr 1
    exact unique_id_eq hL (List.mem_reverse.mp hxm) hr hxid
  rw [hfind]
  rfl

theorem mem_values_of_mapGet {m : List (String × Record)} {k : String} {v : Record}
    (h : mapGet m k = some v) : v ∈ m.map (fun p => p.2) := by
  unfold mapGet at h
  obtain ⟨p, hp, hv⟩ : ∃ p, m.find? (fun q => q.1 == k) = some p ∧ p.2 = v := by
    cases hf : m.find? (fun q => q.1 == k) with
    | none =>
      rw [hf] at h
      simp at h
    | some p =>
      rw [hf] at h
      exact ⟨p, rfl, by simpa using h⟩
  exact List.mem_map.mpr ⟨p, List.mem_of_find?_eq_some hp, hv⟩

/-- Any merged record carrying a given id is the record the merge map stores
at that id. -/
theorem mergeValues_id_unique (R L : List Record) (k : String) {x : Record}
    (hx : x ∈ mergeValues R L) (hk : x.id = k) :
    mapGet (mergeById R L) k = some x := by
  unfold mergeValues at hx
  obtain ⟨p, hp, hpx⟩ := List.mem_map.mp hx
  have hkey : p.1 = k := by
    rw [mergeById_key_eq_id R L p hp, hpx, hk]
  have hg := mapGet_of_mem (mergeById_keys_nodup R L) hp
  rw [hkey, hpx] at hg
  exact hg

/-! ### Lemmas: index fields of paginateRecords -/

theorem paginate_totalRecords (now : Int) (rs : List Record) :
    (paginateRecords now rs).2.totalRecords = rs.length := rfl

theorem paginate_totalPages (now : Int) (rs : List Record) :
    (paginateRecords now rs).2.totalPages = (paginateRecords now rs).1.length := rfl

theorem paginate_index_pages (now : Int) (rs : List Record) :
    (paginateRecords now rs).2.pages = (paginateRecords now rs).1.map
      (fun p => (⟨p.pageNumber, p.records.length, now⟩ : PageMeta)) := rfl

theorem paginate_totalPages_ceil (now : Int) (rs : List Record) :
    (paginateRecords now rs).2.totalPages = (rs.length + PAGE_SIZE - 1) / PAGE_SIZE := by
  rw [paginate_totalPages, paginate_pages_length, chunksOf_length PAGE_SIZE (by decide),
    (sortByTimestampDesc_perm rs).length_eq]

theorem paginate_sum_recordCount (now : Int) (rs : List Record) :
    ((paginateRecords now rs).2.pages.map PageMeta.recordCount).sum = rs.length := by
  rw [paginate_index_pages, List.map_map]
  have hc : (PageMeta.recordCount ∘ fun p : PagedData =>
      (⟨p.pageNumber, p.records.length, now⟩ : PageMeta))
      = fun p : PagedData => p.records.length := rfl
  rw [hc]
  have h2 : ((paginateRecords now rs).1.map (fun p => p.records.length))
      = (((paginateRecords now rs).1.map (fun p => p.records)).map List.length) := by
    rw [List.map_map]
    rfl
  rw [h2, paginate_pages_records, ← List.length_flatten,
    chunksOf_flatten PAGE_SIZE (by decide), (sortByTimestampDesc_perm rs).length_eq]

theorem paginate_pages_ne_nil (now : Int) (rs : List Record) (h : rs ≠ []) :
    (paginateRecords now rs).1 ≠ [] := by
  have hlen : (paginateRecords now rs).1.length = (rs.length + PAGE_SIZE - 1) / PAGE_SIZE := by
    rw [← paginate_totalPages]
    exact paginate_totalPages_ceil now rs
  have hn : 0 < rs.length := List.length_pos.mpr h
  have : 0 < (paginateRecords now rs).1.length := by
    rw [hlen]
    show 0 < (rs.length + 100 - 1) / 100
    omega
  exact List.length_pos.mp this

/-! ### Lemmas: traces -/

theorem pushDataTypeOps_pagePuts (dir : String) (now : Int) (rs : List Record) :
    pagePutsOf (pushDataTypeOps dir now rs)
      = (paginateRecords now rs).1.map (RemoteOp.putPage dir) := by
  have hmapfilter : ∀ l : List PagedData,
      (l.map (RemoteOp.putPage dir)).filter (fun op => match op with
        | RemoteOp.putPage _ _ => true
        | _ => false) = l.map (RemoteOp.putPage dir) := by
    intro l
    induction l with
    | nil => rfl
    | cons a t ih => simp [List.filter_cons, ih]
  simp only [pushDataTypeOps, pagePutsOf]
  cases hp : (paginateRecords now rs).1 with
  | nil => simp
  | cons p0 rest =>
    simp only [List.filter_cons, List.filter_append, List.map_cons]
    rw [hmapfilter rest]
    simp [List.filter_cons]

theorem downloadAllPages_eq (pageFetch : Nat → Option PagedData) (index : PageIndex) :
    downloadAllPages pageFetch index
      = ((index.pages.filterMap (fun m => pageFetch m.pageNumber)).map
          (fun p => p.records)).flatten := by
  unfold downloadAllPages
  suffices h : ∀ (metas : List PageMeta) (acc : List Record),
      metas.foldl (fun acc meta => match pageFetch meta.pageNumber with
        | some page => acc ++ page.records
        | none => acc) acc
      = acc ++ ((metas.filterMap (fun m => pageFetch m.pageNumber)).map
          (fun p => p.records)).flatten by
    simpa using h index.pages []
  intro metas
  induction metas with
  | nil =>
    intro acc
    simp
  | cons m ms ih =>
    intro acc
    cases hm : pageFetch m.pageNumber with
    | none => simp [List.foldl_cons, hm, List.filterMap_cons, ih]
    | some p => simp [List.foldl_cons, hm, List.filterMap_cons, ih, List.append_assoc]

/-! ### Claim theorems -/

/-- C1: Local-wins merge.  For every local set L with unique ids and remote
set R, and any record id present in both, the merged set built by the
full-sync merge of syncDataType — both the page-0 merge, which sorts
mergeValues, and the full-repagination re-merge, which uses mergeValues
directly — contains the local copy, and every merged record carrying that
id is the local copy (so the remote copy is not retained). -/
theorem c1_local_wins (R L : List Record) (r : Record)
    (hL : L.Pairwise (fun a b => a.id ≠ b.id))
    (hr : r ∈ L) (hcol : ∃ s ∈ R, s.id = r.id) :
    (r ∈ mergeValues R L ∧ ∀ x ∈ mergeValues R L, x.id = r.id → x = r)
    ∧ (r ∈ sortByTimestampDesc (mergeValues R L)
        ∧ ∀ x ∈ sortByTimestampDesc (mergeValues R L), x.id = r.id → x = r) := by
  have hget := mergeById_get_local R L r hL hr
  have hmem : r ∈ mergeValues R L := mem_values_of_mapGet hget
  have huniq : ∀ x ∈ mergeValues R L, x.id = r.id → x = r := by
    intro x hx hxid
    have hgx := mergeValues_id_unique R L r.id hx hxid
    rw [hget] at hgx
    exact (Option.some.inj hgx).symm
  have hperm := sortByTimestampDesc_perm (mergeValues R L)
  exact ⟨⟨hmem, huniq⟩,
    ⟨hperm.mem_iff.mpr hmem, fun x hx hxid => huniq x (hperm.mem_iff.mp hx) hxid⟩⟩

/-- Witness for C1 at a concrete collision: remote and local both hold id
"a"; the merge keeps the local copy and only the local copy. -/
theorem c1_local_wins_witness :
    (([⟨"a", 9, "local"⟩] : List Record).Pairwise (fun a b => a.id ≠ b.id)
      ∧ (⟨"a", 9, "local"⟩ : Record) ∈ ([⟨"a", 9, "local"⟩] : List Record)
      ∧ ∃ s ∈ ([⟨"a", 5, "remote"⟩] : List Record), s.id = (⟨"a", 9, "local"⟩ : Record).id)
    ∧ (⟨"a", 9, "local"⟩ : Record) ∈ mergeValues [⟨"a", 5, "remote"⟩] [⟨"a", 9, "local"⟩]
    ∧ ∀ x ∈ mergeValues [⟨"a", 5, "remote"⟩] [⟨"a", 9, "local"⟩],
        x.id = (⟨"a", 9, "local"⟩ : Record).id → x = ⟨"a", 9, "local"⟩ := by
  have h := c1_local_wins [⟨"a", 5, "remote"⟩] [⟨"a", 9, "local"⟩] ⟨"a", 9, "local"⟩
    (List.pairwise_singleton _ _) (List.mem_singleton.mpr rfl)
    ⟨⟨"a", 5, "remote"⟩, List.mem_singleton.mpr rfl, rfl⟩
  exact ⟨⟨List.pairwise_singleton _ _, List.mem_singleton.mpr rfl,
    ⟨"a", 5, "remote"⟩, List.mem_singleton.mpr rfl, rfl⟩, h.1.1, h.1.2⟩

/-- C2: Merge union.  For local and remote sets with unique ids, the id set
of the merged map equals the union of the local and remote id sets: no id
is dropped and no new id is introduced. -/
theorem c2_merge_union (R L : List Record)
    (hL : L.Pairwise (fun a b => a.id ≠ b.id))
    (hR : R.Pairwise (fun a b => a.id ≠ b.id)) :
    ∀ k, k ∈ (mergeValues R L).map Record.id
      ↔ (k ∈ L.map Record.id ∨ k ∈ R.map Record.id) :=
  fun k => mergeValues_mem_id R L k

/-- Witness for C2 at a concrete pair of one-record sets. -/
theorem c2_merge_union_witness :
    "a" ∈ (mergeValues [⟨"b", 1, ""⟩] [⟨"a", 2, ""⟩]).map Record.id
      ↔ ("a" ∈ ([⟨"a", 2, ""⟩] : List Record).map Record.id
          ∨ "a" ∈ ([⟨"b", 1, ""⟩] : List Record).map Record.id) :=
  c2_merge_union [⟨"b", 1, ""⟩] [⟨"a", 2, ""⟩]
    (List.pairwise_singleton _ _) (List.pairwise_singleton _ _) "a"

/-- C3: Pagination count invariant.  For every input record set of size n,
paginateRecords reports totalRecords = n and totalPages = ceil(n / 100),
the per-page recordCounts sum to n, and the number of emitted pages equals
totalPages (so n = 0 yields zero pages). -/
theorem c3_pagination_count (now : Int) (records : List Record) :
    (paginateRecords now records).2.totalRecords = records.length
    ∧ (paginateRecords now records).2.totalPages
        = (records.length + PAGE_SIZE - 1) / PAGE_SIZE
    ∧ ((paginateRecords now records).2.pages.map PageMeta.recordCount).sum
        = records.length
    ∧ (paginateRecords now records).1.length
        = (records.length + PAGE_SIZE - 1) / PAGE_SIZE := by
  refine ⟨paginate_totalRecords now records, paginate_totalPages_ceil now records,
    paginate_sum_recordCount now records, ?_⟩
  rw [← paginate_totalPages]
  exact paginate_totalPages_ceil now records

/-- C6: Ordering invariant.  Concatenating the pages of paginateRecords in
page order yields a timestamp-descending sequence, and every record of an
earlier page has a timestamp at least that of every record of any later
page (in particular page 0's minimum is at least page 1's maximum). -/
theorem c6_ordering (now : Int) (records : List Record) :
    ((paginateRecords now records).1.map (fun p => p.records)).flatten.Pairwise
        (fun a b => b.timestamp ≤ a.timestamp)
    ∧ ((paginateRecords now records).1.map (fun p => p.records)).Pairwise
        (fun p q => ∀ a ∈ p, ∀ b ∈ q, b.timestamp ≤ a.timestamp) := by
  have hflat : ((paginateRecords now records).1.map (fun p => p.records)).flatten
      = sortByTimestampDesc records := by
    rw [paginate_pages_records, chunksOf_flatten PAGE_SIZE (by decide)]
  have hsorted := sortByTimestampDesc_pairwise records
  refine ⟨by rw [hflat]; exact hsorted, ?_⟩
  have hall := List.pairwise_flatten.mp (by rw [hflat]; exact hsorted :
    ((paginateRecords now records).1.map (fun p => p.records)).flatten.Pairwise
      (fun a b => b.timestamp ≤ a.timestamp))
  exact hall.2

/-- C9: Disabled-config no-op.  When the WebDAV configuration is absent or
its enabled flag is false, syncData returns exactly its input sets and
issues no remote request, and pushChanges issues no remote request. -/
theorem c9_disabled_noop (config : Option WebDAVConfig) (env : RemoteEnv) (now : Int)
    (localHistory localNotebook : List Record)
    (h : configEnabled config = false) :
    syncData config env now localHistory localNotebook
        = ((localHistory, localNotebook), [])
    ∧ pushChanges config now localHistory localNotebook = [] := by
  constructor
  · unfold syncData
    rw [if_pos h]
  · unfold pushChanges
    rw [if_pos h]

/-- Witness for C9 with an absent configuration and nonempty local sets. -/
theorem c9_disabled_noop_witness :
    configEnabled none = false
    ∧ syncData none ⟨FetchResult.notFound, FetchResult.notFound, fun _ => none, fun _ => none⟩
        0 [⟨"h", 1, ""⟩] [⟨"n", 2, ""⟩] = (([⟨"h", 1, ""⟩], [⟨"n", 2, ""⟩]), [])
    ∧ pushChanges none 0 [⟨"h", 1, ""⟩] [⟨"n", 2, ""⟩] = [] := by
  refine ⟨rfl, ?_, ?_⟩
  · exact (c9_disabled_noop none
      ⟨FetchResult.notFound, FetchResult.notFound, fun _ => none, fun _ => none⟩ 0
      [⟨"h", 1, ""⟩] [⟨"n", 2, ""⟩] rfl).1
  · exact (c9_disabled_noop none
      ⟨FetchResult.notFound, FetchResult.notFound, fun _ => none, fun _ => none⟩ 0
      [⟨"h", 1, ""⟩] [⟨"n", 2, ""⟩] rfl).2

/-- C4 counterexample: with a connectivity error on the index fetch and one
local record, syncDataType does not abort; it issues the bootstrap uploads
(page 0 plus a fresh index) and returns the local set as a success. -/
theorem c4_counterexample :
    (syncDataTypeOps "echoback/history" FetchResult.error (fun _ => none) 0
        [⟨"a", 1, "p"⟩]).2
      = [RemoteOp.getIndex "echoback/history",
         RemoteOp.putPage "echoback/history" ⟨0, [⟨"a", 1, "p"⟩]⟩,
         RemoteOp.putIndex "echoback/history" ⟨2, 1, 100, 1, 0, [⟨0, 1, 0⟩]⟩]
    ∧ (syncDataTypeOps "echoback/history" FetchResult.error (fun _ => none) 0
        [⟨"a", 1, "p"⟩]).1 = [⟨"a", 1, "p"⟩] := by
  constructor
  · decide
  · decide

/-- C4 amended: a connectivity error while fetching the remote index is
caught by getPageIndex and mapped to null, so syncDataType behaves exactly
as if the remote index were absent: it runs the bootstrap upload of the
full local set instead of aborting. -/
theorem c4_error_treated_as_absent (dir : String) (pageFetch : Nat → Option PagedData)
    (now : Int) (localRecords : List Record) :
    syncDataTypeOps dir FetchResult.error pageFetch now localRecords
        = syncDataTypeOps dir FetchResult.notFound pageFetch now localRecords
    ∧ syncDataTypeOps dir FetchResult.error pageFetch now localRecords
        = (localRecords,
            RemoteOp.getIndex dir :: uploadAllPagesOps dir now localRecords) :=
  ⟨rfl, rfl⟩

/-- C5 counterexample: with the remote index present, remote page 0
unavailable and no local records, the merged-fits-one-page path writes an
index with totalPages = 1 and totalRecords = 0, violating
totalPages = ceil(totalRecords / pageSize). -/
theorem c5_counterexample :
    (syncDataTypeOps "echoback/history" (FetchResult.ok ⟨2, 0, 100, 0, 0, []⟩)
        (fun _ => none) 0 []).2
      = [RemoteOp.getIndex "echoback/history", RemoteOp.getPage "echoback/history" 0,
         RemoteOp.putPage "echoback/history" ⟨0, []⟩,
         RemoteOp.putIndex "echoback/history" (shortcutIndex 0 [])]
    ∧ (shortcutIndex 0 []).totalPages
        ≠ ((shortcutIndex 0 []).totalRecords + PAGE_SIZE - 1) / PAGE_SIZE := by
  constructor
  · decide
  · decide

/-- C5 amended: every index written through paginateRecords (bootstrap
upload, full repagination, incremental push) satisfies both invariants;
the fresh one-page index of the merged-fits-one-page shortcut always
satisfies the sum invariant, and satisfies the ceiling invariant exactly
when the merged set is nonempty (a merged count of 0 yields totalPages = 1
while ceil(0 / 100) = 0). -/
theorem c5_index_consistency (now : Int) (records merged : List Record) :
    (((paginateRecords now records).2.pages.map PageMeta.recordCount).sum
        = (paginateRecords now records).2.totalRecords
      ∧ (paginateRecords now records).2.totalPages
        = ((paginateRecords now records).2.totalRecords + PAGE_SIZE - 1) / PAGE_SIZE)
    ∧ (((shortcutIndex now merged).pages.map PageMeta.recordCount).sum
        = (shortcutIndex now merged).totalRecords
      ∧ (merged ≠ [] → merged.length ≤ PAGE_SIZE →
          (shortcutIndex now merged).totalPages
            = ((shortcutIndex now merged).totalRecords + PAGE_SIZE - 1) / PAGE_SIZE)) := by
  refine ⟨⟨?_, ?_⟩, ?_, ?_⟩
  · rw [paginate_sum_recordCount, paginate_totalRecords]
  · rw [paginate_totalPages_ceil, paginate_totalRecords]
  · simp [shortcutIndex]
  · intro hne hle
    have hpos : 0 < merged.length := List.length_pos.mpr hne
    show (1 : Nat) = (merged.length + PAGE_SIZE - 1) / PAGE_SIZE
    show (1 : Nat) = (merged.length + 100 - 1) / 100
    have hle2 : merged.length ≤ 100 := hle
    omega

/-- Witness for C5 at one merged record: the shortcut index then satisfies
the ceiling invariant. -/
theorem c5_index_consistency_witness :
    ([⟨"a", 1, ""⟩] : List Record) ≠ []
    ∧ ([⟨"a", 1, ""⟩] : List Record).length ≤ PAGE_SIZE
    ∧ (shortcutIndex 0 [⟨"a", 1, ""⟩]).totalPages
        = ((shortcutIndex 0 [⟨"a", 1, ""⟩]).totalRecords + PAGE_SIZE - 1) / PAGE_SIZE := by
  refine ⟨by decide, by decide, ?_⟩
  exact (c5_index_consistency 0 [] [⟨"a", 1, ""⟩]).2.2 (by decide) (by decide)

/-- C7 counterexample: pushing the same one-record set at two different
clock readings uploads different traces, and the serialized index files
differ byte-wise, because lastSyncTime and lastModified are stamped with
the invocation time. -/
theorem c7_counterexample :
    pushDataTypeOps "echoback/history" 0 [⟨"a", 5, ""⟩]
        ≠ pushDataTypeOps "echoback/history" 1 [⟨"a", 5, ""⟩]
    ∧ serializeIndex (paginateRecords 0 [⟨"a", 5, ""⟩]).2
        ≠ serializeIndex (paginateRecords 1 [⟨"a", 5, ""⟩]).2 := by
  constructor
  · decide
  · decide

/-- C7 amended: pushing the same local set twice uploads identical page
files regardless of the clock, and the whole upload sequence (index file
included) is identical exactly when both invocations observe the same
clock reading; with an advanced clock the index files differ in their
time-stamp fields. -/
theorem c7_push_deterministic (dir : String) (now1 now2 : Int) (records : List Record) :
    pagePutsOf (pushDataTypeOps dir now1 records)
        = pagePutsOf (pushDataTypeOps dir now2 records)
    ∧ (now1 = now2 →
        pushDataTypeOps dir now1 records = pushDataTypeOps dir now2 records) := by
  constructor
  · rw [pushDataTypeOps_pagePuts, pushDataTypeOps_pagePuts]
    rfl
  · intro h
    rw [h]

/-- Witness for C7: page uploads agree across two distinct clock readings,
and the whole trace agrees when the clock reading is shared. -/
theorem c7_push_deterministic_witness :
    pagePutsOf (pushDataTypeOps "echoback/notebook" 0 [⟨"a", 5, ""⟩])
        = pagePutsOf (pushDataTypeOps "echoback/notebook" 1 [⟨"a", 5, ""⟩])
    ∧ pushDataTypeOps "echoback/notebook" 2 [⟨"a", 5, ""⟩]
        = pushDataTypeOps "echoback/notebook" 2 [⟨"a", 5, ""⟩] :=
  ⟨(c7_push_deterministic "echoback/notebook" 0 1 [⟨"a", 5, ""⟩]).1,
    (c7_push_deterministic "echoback/notebook" 2 2 [⟨"a", 5, ""⟩]).2 rfl⟩

/-- C8 counterexample: pushing the empty record set uploads nothing at all,
in particular no index file, contradicting the claim for the empty set. -/
theorem c8_counterexample :
    pushDataTypeTrace "echoback/history" (fun _ => true) 0 [] = ([], true)
    ∧ pushDataTypeOps "echoback/history" 0 [] = [] := by
  constructor
  · rfl
  · rfl

/-- C8 amended: for every nonempty local record set, any index PUT in the
push trace is the final operation, occurs only when every page PUT
succeeded, and is preceded by a PUT of every page of the pagination; and
when all page PUTs succeed the trace does end with the PUT of the fresh
index and the push completes.  The empty set uploads nothing. -/
theorem c8_index_last (dir : String) (pageOk : Nat → Bool) (now : Int)
    (records : List Record) (hne : records ≠ []) :
    (∀ i : PageIndex,
        RemoteOp.putIndex dir i ∈ (pushDataTypeTrace dir pageOk now records).1 →
          (pushDataTypeTrace dir pageOk now records).1.getLast?
              = some (RemoteOp.putIndex dir i)
          ∧ ∀ p ∈ (paginateRecords now records).1,
              RemoteOp.putPage dir p ∈ (pushDataTypeTrace dir pageOk now records).1
              ∧ pageOk p.pageNumber = true)
    ∧ ((∀ p ∈ (paginateRecords now records).1, pageOk p.pageNumber = true) →
        (pushDataTypeTrace dir pageOk now records).1.getLast?
            = some (RemoteOp.putIndex dir (paginateRecords now records).2)
        ∧ (pushDataTypeTrace dir pageOk now records).2 = true) := by
  have hpne := paginate_pages_ne_nil now records hne
  simp only [pushDataTypeTrace]
  cases hp : (paginateRecords now records).1 with
  | nil => exact absurd hp hpne
  | cons p0 rest =>
    cases hok0 : pageOk p0.pageNumber with
    | false =>
      simp only [hok0, Bool.false_eq_true, if_false]
      constructor
      · intro i hi
        simp at hi
      · intro hall
        have hcon := hall p0 (List.mem_cons_self p0 rest)
        rw [hok0] at hcon
        exact absurd hcon (by simp)
    | true =>
      simp only [hok0, if_true]
      cases hrest : rest.all (fun p => pageOk p.pageNumber) with
      | false =>
        simp only [hrest, Bool.false_eq_true, if_false]
        constructor
        · intro i hi
          simp only [List.mem_cons, List.mem_map] at hi
          rcases hi with hi | ⟨p, _, hi⟩ <;> exact absurd hi (by simp)
        · intro hall
          have hallrest : rest.all (fun p => pageOk p.pageNumber) = true := by
            rw [List.all_eq_true]
            intro p hpmem
            exact hall p (List.mem_cons_of_mem p0 hpmem)
          rw [hrest] at hallrest
          exact absurd hallrest (by simp)
      | true =>
        simp only [hrest, if_true]
        have hlast : (RemoteOp.putPage dir p0 :: (rest.map (RemoteOp.putPage dir)
            ++ [RemoteOp.putIndex dir (paginateRecords now records).2])).getLast?
            = some (RemoteOp.putIndex dir (paginateRecords now records).2) := by
          rw [← List.cons_append, List.getLast?_concat]
        constructor
        · intro i hi
          have hieq : i = (paginateRecords now records).2 := by
            simp only [List.mem_cons, List.mem_append, List.mem_map,
              List.not_mem_nil, or_false] at hi
            rcases hi with hi | (⟨p, _, hi⟩ | hi)
            · exact absurd hi (by simp)
            · exact absurd hi (by simp)
            · exact (RemoteOp.putIndex.injEq _ _ _ _).mp hi |>.2
          subst hieq
          refine ⟨hlast, ?_⟩
          intro p hpmem
          rcases List.mem_cons.mp hpmem with rfl | hpmem
          · exact ⟨List.mem_cons_self _ _, hok0⟩
          · refine ⟨?_, ?_⟩
            · exact List.mem_cons_of_mem _ (List.mem_append_left _
                (List.mem_map.mpr ⟨p, hpmem, rfl⟩))
            · exact List.all_eq_true.mp hrest p hpmem
        · intro _
          exact ⟨hlast, by trivial⟩

/-- Witness for C8 with one record and all page PUTs succeeding: the trace
ends with the PUT of the fresh index and the push completes. -/
theorem c8_index_last_witness :
    ([⟨"a", 1, ""⟩] : List Record) ≠ []
    ∧ (pushDataTypeTrace "echoback/notebook" (fun _ => true) 0 [⟨"a", 1, ""⟩]).1.getLast?
        = some (RemoteOp.putIndex "echoback/notebook" (paginateRecords 0 [⟨"a", 1, ""⟩]).2)
    ∧ (pushDataTypeTrace "echoback/notebook" (fun _ => true) 0 [⟨"a", 1, ""⟩]).2 = true := by
  have h := (c8_index_last "echoback/notebook" (fun _ => true) 0 [⟨"a", 1, ""⟩]
    (by decide)).2 (fun p _ => rfl)
  exact ⟨by decide, h.1, h.2⟩

/-- C10: Silent page loss on partial download.  downloadAllPages keeps only
the pages whose fetch succeeded, dropping failed pages without any error;
consequently, when the full-repagination path of syncDataType runs while
some listed page fetch fails, any record whose id lives only on that
skipped page (absent from the downloaded pages and from the local set) is
missing from the returned merged set, yet the sync still completes: the
trace ends with the successful PUT of the fresh index. -/
theorem c10_silent_page_loss (dir : String) (pageFetch : Nat → Option PagedData)
    (idx : PageIndex) (now : Int) (localRecords : List Record) (k : Nat) (x : Record)
    (hk : pageFetch k = none)
    (hmem : k ∈ idx.pages.map PageMeta.pageNumber)
    (hbig : (sortByTimestampDesc
        (mergeValues (page0Records pageFetch) localRecords)).length > PAGE_SIZE)
    (hx1 : x.id ∉ (downloadAllPages pageFetch idx).map Record.id)
    (hx2 : x.id ∉ localRecords.map Record.id) :
    downloadAllPages pageFetch idx
      = ((idx.pages.filterMap (fun m => pageFetch m.pageNumber)).map
          (fun p => p.records)).flatten
    ∧ x.id ∉ (syncDataTypeOps dir (FetchResult.ok idx) pageFetch now
        localRecords).1.map Record.id
    ∧ (syncDataTypeOps dir (FetchResult.ok idx) pageFetch now
        localRecords).2.getLast?
      = some (RemoteOp.putIndex dir (paginateRecords now
          (mergeValues (downloadAllPages pageFetch idx) localRecords)).2) := by
  have hsync : syncDataTypeOps dir (FetchResult.ok idx) pageFetch now localRecords
      = (mergeValues (downloadAllPages pageFetch idx) localRecords,
         RemoteOp.getIndex dir :: RemoteOp.getPage dir 0 ::
           (idx.pages.map (fun m => RemoteOp.getPage dir m.pageNumber) ++
             uploadAllPagesOps dir now
               (mergeValues (downloadAllPages pageFetch idx) localRecords))) := by
    unfold syncDataTypeOps
    simp only [getPageIndex]
    rw [if_pos hbig]
  have hres : (syncDataTypeOps dir (FetchResult.ok idx) pageFetch now localRecords).1
      = mergeValues (downloadAllPages pageFetch idx) localRecords := by
    rw [hsync]
  have hops : (syncDataTypeOps dir (FetchResult.ok idx) pageFetch now localRecords).2
      = RemoteOp.getIndex dir :: RemoteOp.getPage dir 0 ::
          (idx.pages.map (fun m => RemoteOp.getPage dir m.pageNumber) ++
            uploadAllPagesOps dir now
              (mergeValues (downloadAllPages pageFetch idx) localRecords)) := by
    rw [hsync]
  refine ⟨downloadAllPages_eq pageFetch idx, ?_, ?_⟩
  · rw [hres]
    intro hin
    rcases (mergeValues_mem_id _ _ _).mp hin with h | h
    · exact hx2 h
    · exact hx1 h
  · rw [hops]
    simp only [uploadAllPagesOps]
    have hre : ∀ (a b : RemoteOp) (l1 l2 : List RemoteOp) (e : RemoteOp),
        a :: b :: (l1 ++ (l2 ++ [e])) = (a :: b :: (l1 ++ l2)) ++ [e] := by
      intro a b l1 l2 e
      simp
    rw [hre, List.getLast?_concat]

set_option maxRecDepth 400000

/-- Witness for C10: the remote lists two pages; page 0 holds one hundred
records and downloads fine, the fetch of page 1 fails, and the record with
id "x" lives only on page 1.  The merge of page 0 with one local record
exceeds one page, the full-repagination path runs, and the returned set
does not contain id "x". -/
theorem c10_silent_page_loss_witness :
    (remoteFetchWitness 1 = none
      ∧ (1 : Nat) ∈ remoteIndexWitness.pages.map PageMeta.pageNumber
      ∧ (sortByTimestampDesc
          (mergeValues (page0Records remoteFetchWitness) localOne)).length > PAGE_SIZE
      ∧ lostRecord.id ∉ (downloadAllPages remoteFetchWitness remoteIndexWitness).map
          Record.id
      ∧ lostRecord.id ∉ localOne.map Record.id)
    ∧ lostRecord.id ∉ (syncDataTypeOps "echoback/history"
        (FetchResult.ok remoteIndexWitness) remoteFetchWitness 0 localOne).1.map
        Record.id := by
  have h := c10_silent_page_loss "echoback/history" remoteFetchWitness
    remoteIndexWitness 0 localOne 1 lostRecord rfl (by decide) (by decide)
    (by decide) (by decide)
  exact ⟨⟨rfl, by decide, by decide, by decide, by decide⟩, h.2.1⟩

end EchoBack
